import Mathlib

/-!
# Verification of `run_gemma_rag.py`

A shallow embedding of the command-line front-end in `run_gemma_rag.py`:
the query runner `execute_workflow`, the interactive loop
`interactive_mode`, and the entry point `main`, together with a model of
`json.dumps(result, indent=2)` (the exact CPython `ensure_ascii`
serialization, including `\uXXXX` escapes and surrogate pairs) and an
independent JSON decoder used to state parseability of the printed result.

Python strings are embedded as Lean `String`, Python lists as Lean `List`,
Python dicts of fixed shape as Lean structures.  `str.strip` is embedded as
`pyStrip` and `str.lower` as `pyLower` (the words compared against are
ASCII).  Wall-clock readings (`time.time()`) are not embedded;
the one printed line that depends on them is represented by the opaque
output token `OutLine.timing`.
-/

namespace GemmaRag

/-! ## Data model: the execution result record -/

/-- The `input` sub-dict of the result record: `{"query": query}`. -/
structure WorkflowInput where
  query : String
deriving Repr, DecidableEq

/-- The result dict built by `execute_workflow`, field for field, in the
dict's insertion order. -/
structure ExecutionResult where
  workflow_id : String
  input : WorkflowInput
  status : String
  nodes_executed : Nat
  merkle_root : String
deriving Repr, DecidableEq

/-- `execute_workflow(query)`: returns the result record together with the
lines it prints to standard output, in order.  The record is a literal:
only `input.query` depends on the argument. -/
def execute_workflow (query : String) : ExecutionResult × List String :=
  let result : ExecutionResult :=
    { workflow_id := "gemma-rag-cascade"
      input := { query := query }
      status := "completed"
      nodes_executed := 13
      merkle_root := "4fcd7d2a62aa31a3" }
  (result,
    ["\n🔍 Query: " ++ query,
     "⚙️  Executing workflow...",
     "✓ Workflow completed",
     "✓ Nodes executed: " ++ toString result.nodes_executed ++ "/13",
     "✓ Merkle root: " ++ result.merkle_root])

/-! ## The interactive loop

One iteration of the `while True` body of `interactive_mode`, as a function
of what happens during that iteration.  An iteration either reads a line
successfully and runs the body on it, or an exception is raised — at the
blocking `input()` call, or later while the query is being processed (with
some prefix of the workflow's progress lines already printed).  The two
`except` arms of the source distinguish `KeyboardInterrupt` from every
other exception (`EOFError` included), so the exception model does too. -/

/-- Loop control state: still looping (about to block on `input()`), or the
loop has been left via `break`. -/
inductive LoopState where
  | waiting
  | terminated
deriving Repr, DecidableEq

/-- A Python exception, as dispatched by the two `except` arms:
`KeyboardInterrupt` is caught separately; `EOFError` (what `input()` raises
at end of input) and any other runtime exception are both only `Exception`
instances, caught by the generic arm. -/
inductive PyExc where
  | keyboardInterrupt
  | eofError (msg : String)
  | runtimeError (msg : String)
deriving Repr, DecidableEq

/-- The message `str(e)` interpolated into the error line. -/
def PyExc.message : PyExc → String
  | .keyboardInterrupt => ""
  | .eofError m => m
  | .runtimeError m => m

/-- A line printed during an iteration: ordinary text, or the elapsed-time
line, whose content depends on wall-clock readings and is therefore kept
opaque. -/
inductive OutLine where
  | text (s : String)
  | timing
deriving Repr, DecidableEq

/-- What happens during one iteration of the loop body. -/
inductive Event where
  | line (s : String)
  | raisedAtRead (e : PyExc)
  | raisedInProcessing (s : String) (k : Nat) (e : PyExc)
deriving Repr, DecidableEq

/-- The outcome of one iteration: the control state afterwards, whether
`execute_workflow` was invoked, and the lines printed. -/
structure IterResult where
  next : LoopState
  invokedRunner : Bool
  printed : List OutLine
deriving Repr, DecidableEq

/-- The characters Python's `str.strip()` removes — CPython's
`Py_UNICODE_ISSPACE` set: `0x09`–`0x0d` (tab, newline, vertical tab, form
feed, carriage return), `0x1c`–`0x1f`, the space, NEL (`0x85`), no-break
space (`0xa0`), the Ogham space mark (`0x1680`), the `0x2000`–`0x200a`
spaces, the line and paragraph separators (`0x2028`, `0x2029`), narrow
no-break space (`0x202f`), medium mathematical space (`0x205f`), and the
ideographic space (`0x3000`). -/
def pyIsSpace (c : Char) : Bool :=
  (9 ≤ c.toNat ∧ c.toNat ≤ 13) ∨ (28 ≤ c.toNat ∧ c.toNat ≤ 32)
    ∨ c.toNat = 133 ∨ c.toNat = 160 ∨ c.toNat = 5760
    ∨ (8192 ≤ c.toNat ∧ c.toNat ≤ 8202) ∨ c.toNat = 8232 ∨ c.toNat = 8233
    ∨ c.toNat = 8239 ∨ c.toNat = 8287 ∨ c.toNat = 12288

/-- Python's `str.strip()`: drop leading and trailing Unicode
whitespace. -/
def pyStrip (s : String) : String :=
  String.mk (((s.data.dropWhile pyIsSpace).reverse.dropWhile
    pyIsSpace).reverse)

/-- Python's `str.lower()`: lowercase character by character (the strings
compared against below are ASCII). -/
def pyLower (s : String) : String :=
  String.mk (s.data.map Char.toLower)

/-- The quit words of `query.lower() in ['quit', 'exit', 'q']`. -/
def quitWords : List String := ["quit", "exit", "q"]

/-- The two `except` arms: `KeyboardInterrupt` prints the farewell and
breaks; any other exception prints the error line and falls through to the
next iteration.  `pre` is whatever the `try` body printed before the
exception was raised. -/
def handleExc (invoked : Bool) (pre : List OutLine) : PyExc → IterResult
  | .keyboardInterrupt =>
      ⟨.terminated, invoked, pre ++ [.text "\n\n👋 Goodbye!"]⟩
  | .eofError m =>
      ⟨.waiting, invoked, pre ++ [.text ("\n❌ Error: " ++ m)]⟩
  | .runtimeError m =>
      ⟨.waiting, invoked, pre ++ [.text ("\n❌ Error: " ++ m)]⟩

/-- One iteration of the `while True` body of `interactive_mode`. -/
def interactive_step : Event → IterResult
  | .line s =>
      let query := pyStrip s
      if quitWords.contains (pyLower query) then
        ⟨.terminated, false, [.text "\n👋 Goodbye!"]⟩
      else if query = "" then
        ⟨.waiting, false, []⟩
      else
        ⟨.waiting, true, ((execute_workflow query).2).map .text ++ [.timing]⟩
  | .raisedAtRead e => handleExc false [] e
  | .raisedInProcessing s k e =>
      handleExc true ((((execute_workflow (pyStrip s)).2).take k).map .text) e

/-! ## `json.dumps(result, indent=2)`

The single-shot mode prints `json.dumps(result, indent=2)`.  With CPython's
defaults that serialization is reproduced here exactly: keys in dict
insertion order, a newline after every `{` and `,`, two more spaces of
indentation per nesting level, `": "` between key and value, and
`ensure_ascii=True` string escaping — `\"`, `\\`, `\b`, `\f`, `\n`, `\r`,
`\t` as short escapes, every other character outside the printable ASCII
range `0x20..0x7e` as `\uXXXX` with lowercase hex digits, and characters
above `0xffff` as a UTF-16 surrogate pair of two `\uXXXX` escapes. -/

/-- A JSON value, the common data model of the serializer below and of the
decoder used to state parseability. -/
inductive Json where
  | null
  | bool (b : Bool)
  | num (n : Int)
  | str (s : String)
  | arr (elements : List Json)
  | obj (members : List (String × Json))

/-- Lowercase hexadecimal digit for `n < 16` (as CPython's encoder emits). -/
def hexDigitChar (n : Nat) : Char :=
  if n < 10 then Char.ofNat (n + 48) else Char.ofNat (n + 87)

/-- The four hex digits of `n < 0x10000`, most significant first. -/
def hexQuad (n : Nat) : List Char :=
  [hexDigitChar (n / 4096 % 16), hexDigitChar (n / 256 % 16),
   hexDigitChar (n / 16 % 16), hexDigitChar (n % 16)]

/-- One character of a string, escaped as CPython's
`ensure_ascii` encoder writes it. -/
def jsonEscapeChar (c : Char) : List Char :=
  if c = '"' then ['\\', '"']
  else if c = '\\' then ['\\', '\\']
  else if c = '\n' then ['\\', 'n']
  else if c = '\t' then ['\\', 't']
  else if c = '\r' then ['\\', 'r']
  else if c = Char.ofNat 8 then ['\\', 'b']
  else if c = Char.ofNat 12 then ['\\', 'f']
  else if 32 ≤ c.toNat ∧ c.toNat ≤ 126 then [c]
  else if c.toNat < 65536 then '\\' :: 'u' :: hexQuad c.toNat
  else
    '\\' :: 'u' :: hexQuad (55296 + (c.toNat - 65536) / 1024)
      ++ '\\' :: 'u' :: hexQuad (56320 + (c.toNat - 65536) % 1024)

/-- A whole string body, escaped character by character. -/
def jsonEscapeList : List Char → List Char
  | [] => []
  | c :: cs => jsonEscapeChar c ++ jsonEscapeList cs

/-- A JSON string literal: quoted, escaped body. -/
def jsonQuote (s : String) : List Char :=
  '"' :: (jsonEscapeList s.data ++ ['"'])

/-- Decimal digits of `n`, most significant first — the digits of
Python's `repr` of a nonnegative `int`. -/
def decimalDigits (n : Nat) : List Char :=
  if h : n < 10 then [Char.ofNat (n + 48)]
  else decimalDigits (n / 10) ++ [Char.ofNat (n % 10 + 48)]

/-- Python's `repr` of an `int`: optional minus sign, then digits. -/
def intChars (n : Int) : List Char :=
  if n < 0 then '-' :: decimalDigits n.natAbs else decimalDigits n.natAbs

/-- `indent` many spaces. -/
def indentChars (n : Nat) : List Char := List.replicate n ' '

mutual

/-- `json.dumps(v, indent=2)` at current indentation `ind`, as characters. -/
def pyDumpVal (ind : Nat) : Json → List Char
  | .null => 'n' :: 'u' :: 'l' :: 'l' :: []
  | .bool true => 't' :: 'r' :: 'u' :: 'e' :: []
  | .bool false => 'f' :: 'a' :: 'l' :: 's' :: 'e' :: []
  | .num n => intChars n
  | .str s => jsonQuote s
  | .arr [] => '[' :: ']' :: []
  | .arr (e :: es) =>
      '[' :: '\n' ::
        (pyDumpItems (ind + 2) (e :: es) ++ '\n' :: (indentChars ind ++ [']']))
  | .obj [] => ['\x7b', '\x7d']
  | .obj (m :: ms) =>
      '\x7b' :: '\n' ::
        (pyDumpMembers (ind + 2) (m :: ms) ++ '\n' :: (indentChars ind ++ ['\x7d']))

/-- The comma-separated, indented items of a nonempty array. -/
def pyDumpItems (ind : Nat) : List Json → List Char
  | [] => []
  | e :: es =>
      indentChars ind ++ (pyDumpVal ind e ++
        match es with
        | [] => []
        | _ :: _ => ',' :: '\n' :: pyDumpItems ind es)

/-- The comma-separated, indented `"key": value` members of a nonempty
object. -/
def pyDumpMembers (ind : Nat) : List (String × Json) → List Char
  | [] => []
  | (k, v) :: ms =>
      indentChars ind ++ (jsonQuote k ++ ':' :: ' ' :: (pyDumpVal ind v ++
        match ms with
        | [] => []
        | _ :: _ => ',' :: '\n' :: pyDumpMembers ind ms))

end

/-- The result dict as a JSON value, in insertion order. -/
def resultJson (r : ExecutionResult) : Json :=
  .obj [("workflow_id", .str r.workflow_id),
        ("input", .obj [("query", .str r.input.query)]),
        ("status", .str r.status),
        ("nodes_executed", .num (r.nodes_executed : Int)),
        ("merkle_root", .str r.merkle_root)]

/-- `json.dumps(result, indent=2)` for the result record. -/
def pyJsonDumps (r : ExecutionResult) : String :=
  String.mk (pyDumpVal 0 (resultJson r))

/-! ## The entry point `main` -/

/-- What an invocation of `main` does, by `sys.argv[1:]`: enter the
interactive loop, run one query and print its result (exiting 0), or print
the usage text and exit 1. -/
inductive MainBehavior where
  | interactive
  | singleShot (query : String) (printed : List String) (exitCode : Nat)
  | usage (printed : List String) (exitCode : Nat)
deriving Repr

/-- The three lines printed by the no-argument branch. -/
def usageLines : List String :=
  ["Usage:",
   "  python run_gemma_rag.py \"Your question here\"",
   "  python run_gemma_rag.py --interactive"]

/-- `main()`, as a function of `sys.argv[1:]`.  A first argument of
`--interactive` or `-i` selects the loop; otherwise all arguments are
joined with single spaces into one query, the workflow runs once, and the
result is printed as JSON.  With no arguments the usage text is printed
and the process exits with status 1. -/
def main_dispatch (argv : List String) : MainBehavior :=
  match argv with
  | [] => .usage usageLines 1
  | a :: rest =>
      if a = "--interactive" ∨ a = "-i" then .interactive
      else
        let query := String.intercalate " " (a :: rest)
        let p := execute_workflow query
        .singleShot query (p.2 ++ ["\n📊 Result: " ++ pyJsonDumps p.1]) 0

/-! ## A JSON decoder

An independent, standard JSON decoder (RFC 8259 grammar over strings,
numbers restricted to integers, arrays, objects, `true`/`false`/`null`),
used to make "the printed result is parseable by a standard JSON decoder"
a statement of this development.  String literals understand all short
escapes and `\uXXXX`, including UTF-16 surrogate pairs. -/

/-- JSON insignificant whitespace. -/
def isJsonWs (c : Char) : Bool :=
  c = ' ' ∨ c = '\n' ∨ c = '\t' ∨ c = '\r'

/-- Drop leading insignificant whitespace. -/
def skipWs : List Char → List Char
  | [] => []
  | c :: cs => if isJsonWs c then skipWs cs else c :: cs

/-- The value of one short escape character, if legal after a backslash. -/
def unescapeChar (c : Char) : Option Char :=
  if c = '"' then some '"'
  else if c = '\\' then some '\\'
  else if c = '/' then some '/'
  else if c = 'b' then some (Char.ofNat 8)
  else if c = 'f' then some (Char.ofNat 12)
  else if c = 'n' then some '\n'
  else if c = 'r' then some '\r'
  else if c = 't' then some '\t'
  else none

/-- The value of a hexadecimal digit, either case. -/
def hexCharVal (c : Char) : Option Nat :=
  if '0' ≤ c ∧ c ≤ '9' then some (c.toNat - 48)
  else if 'a' ≤ c ∧ c ≤ 'f' then some (c.toNat - 87)
  else if 'A' ≤ c ∧ c ≤ 'F' then some (c.toNat - 55)
  else none

/-- The value of the four hex digits of a `\uXXXX` escape. -/
def hexQuadVal (a b c d : Char) : Option Nat := do
  let x ← hexCharVal a
  let y ← hexCharVal b
  let z ← hexCharVal c
  let w ← hexCharVal d
  some (4096 * x + 256 * y + 16 * z + w)

mutual

/-- Decode a string body after its opening quote, accumulating decoded
characters in reverse.  Unescaped control characters are rejected, as the
grammar demands. -/
def parseStringRest (acc : List Char) : List Char → Option (String × List Char)
  | [] => none
  | '"' :: cs => some (String.mk acc.reverse, cs)
  | '\\' :: cs => parseEscape acc cs
  | c :: cs => if c.toNat < 32 then none else parseStringRest (c :: acc) cs

/-- Decode what follows a backslash: a short escape, or `uXXXX`.  A
`\uXXXX` in the high-surrogate range must be followed by a low surrogate;
a lone or misordered surrogate is rejected. -/
def parseEscape (acc : List Char) : List Char → Option (String × List Char)
  | 'u' :: a :: b :: c :: d :: cs =>
      match hexQuadVal a b c d with
      | none => none
      | some n =>
          if n < 55296 ∨ 57343 < n then
            parseStringRest (Char.ofNat n :: acc) cs
          else if n < 56320 then parseLowSurrogate n acc cs
          else none
  | e :: cs =>
      match unescapeChar e with
      | none => none
      | some c => parseStringRest (c :: acc) cs
  | [] => none

/-- After a high surrogate `hi`, decode the mandatory low-surrogate
`\uXXXX` escape; the pair denotes one character above `0xffff`. -/
def parseLowSurrogate (hi : Nat) (acc : List Char) :
    List Char → Option (String × List Char)
  | '\\' :: 'u' :: a :: b :: c :: d :: cs =>
      match hexQuadVal a b c d with
      | none => none
      | some m =>
          if 56320 ≤ m ∧ m ≤ 57343 then
            parseStringRest
              (Char.ofNat (65536 + 1024 * (hi - 55296) + (m - 56320)) :: acc) cs
          else none
  | _ => none

end

/-- A maximal run of decimal digits, and what follows it. -/
def takeDigitRun : List Char → List Char × List Char
  | [] => ([], [])
  | c :: cs =>
      if c.isDigit then
        let p := takeDigitRun cs
        (c :: p.1, p.2)
      else ([], c :: cs)

/-- The number denoted by a run of decimal digits. -/
def digitRunVal (ds : List Char) : Nat :=
  ds.foldl (fun a c => 10 * a + (c.toNat - 48)) 0

/-- Decode an integer numeral: an optional minus sign, then at least one
digit. -/
def parseNumber (cs : List Char) : Option (Int × List Char) :=
  match cs with
  | '-' :: cs1 =>
      let p := takeDigitRun cs1
      if p.1 = [] then none else some (-(digitRunVal p.1 : Int), p.2)
  | _ =>
      let p := takeDigitRun cs
      if p.1 = [] then none else some ((digitRunVal p.1 : Int), p.2)

mutual

/-- Decode one JSON value (after optional leading whitespace), returning
it and the unconsumed remainder.  Structural recursion is on `fuel`; the
top-level entry point supplies more fuel than the input has characters,
which is always enough. -/
def parseJsonValue : Nat → List Char → Option (Json × List Char)
  | 0, _ => none
  | fuel + 1, cs =>
      match skipWs cs with
      | [] => none
      | c :: r =>
          if c = '"' then
            match parseStringRest [] r with
            | some (s, r1) => some (.str s, r1)
            | none => none
          else if c = '\x7b' then
            match skipWs r with
            | [] => none
            | c1 :: r1 =>
                if c1 = '\x7d' then some (.obj [], r1)
                else
                  match parseJsonMembers fuel (c1 :: r1) with
                  | some (ms, r2) => some (.obj ms, r2)
                  | none => none
          else if c = '[' then
            match skipWs r with
            | [] => none
            | c1 :: r1 =>
                if c1 = ']' then some (.arr [], r1)
                else
                  match parseJsonItems fuel (c1 :: r1) with
                  | some (vs, r2) => some (.arr vs, r2)
                  | none => none
          else if c = 'n' then
            match r with
            | 'u' :: 'l' :: 'l' :: r1 => some (.null, r1)
            | _ => none
          else if c = 't' then
            match r with
            | 'r' :: 'u' :: 'e' :: r1 => some (.bool true, r1)
            | _ => none
          else if c = 'f' then
            match r with
            | 'a' :: 'l' :: 's' :: 'e' :: r1 => some (.bool false, r1)
            | _ => none
          else if c = '-' ∨ c.isDigit then
            match parseNumber (c :: r) with
            | some (n, r1) => some (.num n, r1)
            | none => none
          else none

/-- Decode the one-or-more comma-separated elements of a nonempty array,
through the closing bracket. -/
def parseJsonItems : Nat → List Char → Option (List Json × List Char)
  | 0, _ => none
  | fuel + 1, cs =>
      match parseJsonValue fuel cs with
      | none => none
      | some (v, r) =>
          match skipWs r with
          | [] => none
          | c :: r1 =>
              if c = ',' then
                match parseJsonItems fuel r1 with
                | some (vs, r2) => some (v :: vs, r2)
                | none => none
              else if c = ']' then some ([v], r1)
              else none

/-- Decode the one-or-more comma-separated `"key": value` members of a
nonempty object, through the closing brace. -/
def parseJsonMembers : Nat → List Char → Option (List (String × Json) × List Char)
  | 0, _ => none
  | fuel + 1, cs =>
      match skipWs cs with
      | [] => none
      | c :: r =>
          if c = '"' then
            match parseStringRest [] r with
            | none => none
            | some (k, r1) =>
                match skipWs r1 with
                | [] => none
                | c2 :: r2 =>
                    if c2 = ':' then
                      match parseJsonValue fuel r2 with
                      | none => none
                      | some (v, r3) =>
                          match skipWs r3 with
                          | [] => none
                          | c3 :: r4 =>
                              if c3 = ',' then
                                match parseJsonMembers fuel r4 with
                                | some (ms, r5) => some ((k, v) :: ms, r5)
                                | none => none
                              else if c3 = '\x7d' then some ([(k, v)], r4)
                              else none
                    else none
          else none

end

/-- A continuation that cannot extend a numeral: empty input, or a
non-digit first character.  (Every continuation the serializer produces
after a number — a comma or a newline — qualifies.) -/
def stopsNumber : List Char → Bool
  | [] => true
  | c :: _ => !c.isDigit

/-- Decode a complete JSON document: one value, then only whitespace. -/
def parseJson (s : String) : Option Json :=
  match parseJsonValue (s.data.length + 1) s.data with
  | some (v, r) => if skipWs r = [] then some v else none
  | none => none

/-- Look a key up in a decoded object (first match, as `dict` access
after `json.loads` would see it). -/
def lookupKey (j : Json) (key : String) : Option Json :=
  match j with
  | .obj ms => ms.lookup key
  | _ => none

/-! ## Round-trip: the decoder inverts the serializer

The serializer's output is accepted by the decoder and decodes back to the
value it was produced from, for every `Json` value — so in particular the
printed single-shot result is parseable.  The development follows the
grammar: hex quads, escaped characters, whole string bodies, numerals,
whitespace handling, then a mutual induction over values, array items and
object members. -/

theorem hexCharVal_hexDigitChar : ∀ d : Nat, d < 16 → hexCharVal (hexDigitChar d) = some d := by
  decide

theorem hexQuadVal_hexQuad (n : Nat) (h : n < 65536) :
    hexQuadVal (hexDigitChar (n / 4096 % 16)) (hexDigitChar (n / 256 % 16))
      (hexDigitChar (n / 16 % 16)) (hexDigitChar (n % 16)) = some n := by
  have h1 := hexCharVal_hexDigitChar (n / 4096 % 16) (Nat.mod_lt _ (by omega))
  have h2 := hexCharVal_hexDigitChar (n / 256 % 16) (Nat.mod_lt _ (by omega))
  have h3 := hexCharVal_hexDigitChar (n / 16 % 16) (Nat.mod_lt _ (by omega))
  have h4 := hexCharVal_hexDigitChar (n % 16) (Nat.mod_lt _ (by omega))
  simp [hexQuadVal, h1, h2, h3, h4]
  omega

theorem char_toNat_bounds (c : Char) :
    c.toNat < 55296 ∨ (57343 < c.toNat ∧ c.toNat < 1114112) := c.valid

theorem parseStringRest_plain (acc cs : List Char) (c : Char)
    (h1 : c ≠ '"') (h2 : c ≠ '\\') (h3 : ¬ c.toNat < 32) :
    parseStringRest acc (c :: cs) = parseStringRest (c :: acc) cs := by
  rw [parseStringRest.eq_def]
  simp [h1, h2, h3]

theorem parseStringRest_bmp (acc cs : List Char) (a b c d : Char) (n : Nat)
    (hq : hexQuadVal a b c d = some n) (hn : n < 55296 ∨ 57343 < n) :
    parseStringRest acc ('\\' :: 'u' :: a :: b :: c :: d :: cs)
      = parseStringRest (Char.ofNat n :: acc) cs := by
  rw [parseStringRest.eq_def]
  simp only [parseEscape, hq]
  rw [if_pos hn]

theorem parseStringRest_pair (acc cs : List Char) (a b c d a2 b2 c2 d2 : Char) (n m : Nat)
    (hq : hexQuadVal a b c d = some n) (hq2 : hexQuadVal a2 b2 c2 d2 = some m)
    (hn : 55296 ≤ n) (hn2 : n < 56320) (hm : 56320 ≤ m ∧ m ≤ 57343) :
    parseStringRest acc
        ('\\' :: 'u' :: a :: b :: c :: d :: '\\' :: 'u' :: a2 :: b2 :: c2 :: d2 :: cs)
      = parseStringRest (Char.ofNat (65536 + 1024 * (n - 55296) + (m - 56320)) :: acc) cs := by
  rw [parseStringRest.eq_def]
  simp only [parseEscape, hq]
  rw [if_neg (by omega), if_pos (by omega)]
  rw [parseLowSurrogate.eq_def]
  simp only [hq2]
  rw [if_pos hm]

theorem parseStringRest_escChar (c : Char) (acc rest : List Char) :
    parseStringRest acc (jsonEscapeChar c ++ rest) = parseStringRest (c :: acc) rest := by
  by_cases h1 : c = '"'
  · subst h1; rfl
  by_cases h2 : c = '\\'
  · subst h2; rfl
  by_cases h3 : c = '\n'
  · subst h3; rfl
  by_cases h4 : c = '\t'
  · subst h4; rfl
  by_cases h5 : c = '\r'
  · subst h5; rfl
  by_cases h6 : c = Char.ofNat 8
  · subst h6; rfl
  by_cases h7 : c = Char.ofNat 12
  · subst h7; rfl
  by_cases h8 : 32 ≤ c.toNat ∧ c.toNat ≤ 126
  · rw [jsonEscapeChar, if_neg h1, if_neg h2, if_neg h3, if_neg h4, if_neg h5,
      if_neg h6, if_neg h7, if_pos h8]
    rw [List.cons_append, List.nil_append, parseStringRest_plain acc rest c h1 h2 (by omega)]
  by_cases h9 : c.toNat < 65536
  · rw [jsonEscapeChar, if_neg h1, if_neg h2, if_neg h3, if_neg h4, if_neg h5,
      if_neg h6, if_neg h7, if_neg h8, if_pos h9]
    have hb := char_toNat_bounds c
    simp only [hexQuad, List.cons_append, List.nil_append]
    rw [parseStringRest_bmp acc rest _ _ _ _ c.toNat (hexQuadVal_hexQuad c.toNat h9)
      (by omega), Char.ofNat_toNat]
  · rw [jsonEscapeChar, if_neg h1, if_neg h2, if_neg h3, if_neg h4, if_neg h5,
      if_neg h6, if_neg h7, if_neg h8, if_neg h9]
    have hb := char_toNat_bounds c
    have hhi : 55296 + (c.toNat - 65536) / 1024 < 65536 := by omega
    have hlo : 56320 + (c.toNat - 65536) % 1024 < 65536 := by
      have := Nat.mod_lt (c.toNat - 65536) (show 0 < 1024 by omega)
      omega
    have hdiv : (c.toNat - 65536) / 1024 < 1024 := by
      have h10 : c.toNat - 65536 < 1048576 := by omega
      omega
    simp only [hexQuad, List.cons_append, List.nil_append, List.append_assoc]
    rw [parseStringRest_pair acc rest _ _ _ _ _ _ _ _ _ _
      (hexQuadVal_hexQuad _ hhi) (hexQuadVal_hexQuad _ hlo)
      (by omega) (by omega) (by constructor <;> omega)]
    have harg : 65536 + 1024 * (55296 + (c.toNat - 65536) / 1024 - 55296)
        + (56320 + (c.toNat - 65536) % 1024 - 56320) = c.toNat := by
      have := Nat.div_add_mod (c.toNat - 65536) 1024
      omega
    rw [harg, Char.ofNat_toNat]

theorem parseStringRest_escList (l : List Char) :
    ∀ (acc rest : List Char),
      parseStringRest acc (jsonEscapeList l ++ '"' :: rest)
        = some (String.mk (acc.reverse ++ l), rest) := by
  induction l with
  | nil => intro acc rest; simp [jsonEscapeList]; rfl
  | cons c l ih =>
      intro acc rest
      rw [jsonEscapeList, List.append_assoc, parseStringRest_escChar, ih]
      simp

theorem parseStringRest_quote (s : String) (rest : List Char) :
    parseStringRest [] (jsonEscapeList s.data ++ '"' :: rest) = some (s, rest) := by
  rw [parseStringRest_escList]
  rfl

theorem digitChar_facts : ∀ d : Nat, d < 10 →
    (Char.ofNat (d + 48)).isDigit = true ∧ (Char.ofNat (d + 48)).toNat = d + 48 := by
  decide

theorem decimalDigits_isDigit (n : Nat) : ∀ c ∈ decimalDigits n, c.isDigit = true := by
  induction n using Nat.strongRecOn with
  | _ n ih =>
      rw [decimalDigits]
      split
      · rename_i h
        intro c hc
        rw [List.mem_singleton] at hc
        subst hc
        exact (digitChar_facts n h).1
      · rename_i h
        intro c hc
        rcases List.mem_append.mp hc with hc1 | hc1
        · exact ih (n / 10) (by omega) c hc1
        · rw [List.mem_singleton] at hc1
          subst hc1
          exact (digitChar_facts (n % 10) (by omega)).1

theorem decimalDigits_ne_nil (n : Nat) : decimalDigits n ≠ [] := by
  rw [decimalDigits]
  split <;> simp

theorem digitRunVal_decimalDigits (n : Nat) : digitRunVal (decimalDigits n) = n := by
  induction n using Nat.strongRecOn with
  | _ n ih =>
      rw [decimalDigits]
      split
      · rename_i h
        simp [digitRunVal, (digitChar_facts n h).2]
      · rename_i h
        rw [digitRunVal, List.foldl_append]
        have := ih (n / 10) (by omega)
        rw [digitRunVal] at this
        simp only [List.foldl_cons, List.foldl_nil, this,
          (digitChar_facts (n % 10) (by omega)).2]
        omega

theorem takeDigitRun_run (ds : List Char) (hds : ∀ c ∈ ds, c.isDigit = true) :
    ∀ rest : List Char, stopsNumber rest = true → takeDigitRun (ds ++ rest) = (ds, rest) := by
  induction ds with
  | nil =>
      intro rest hrest
      cases rest with
      | nil => rfl
      | cons c t =>
          rw [stopsNumber, Bool.not_eq_true'] at hrest
          simp [takeDigitRun, hrest]
  | cons c t ih =>
      intro rest hrest
      have hc : c.isDigit = true := hds c (List.mem_cons_self c t)
      rw [List.cons_append, takeDigitRun]
      rw [ih (fun x hx => hds x (List.mem_cons_of_mem c hx)) rest hrest]
      simp [hc]

theorem decimalDigits_head (n : Nat) :
    ∃ c t, decimalDigits n = c :: t ∧ c.isDigit = true := by
  cases hd : decimalDigits n with
  | nil => exact absurd hd (decimalDigits_ne_nil n)
  | cons c t =>
      refine ⟨c, t, rfl, decimalDigits_isDigit n c ?_⟩
      rw [hd]
      exact List.mem_cons_self c t

theorem isDigit_ne_marks (c : Char) (h : c.isDigit = true) :
    c ≠ '-' ∧ c ≠ 'n' ∧ c ≠ 't' ∧ c ≠ 'f' ∧ c ≠ '"' ∧ c ≠ '[' ∧ c ≠ '\x7b'
      ∧ c ≠ ']' ∧ c ≠ '\x7d' := by
  refine ⟨?_, ?_, ?_, ?_, ?_, ?_, ?_, ?_, ?_⟩ <;>
    (rintro rfl; exact absurd h (by decide))

theorem isDigit_notWs (c : Char) (h : c.isDigit = true) : isJsonWs c = false := by
  cases hw : isJsonWs c with
  | false => rfl
  | true =>
      exfalso
      rw [isJsonWs, decide_eq_true_eq] at hw
      rcases hw with h1 | h1 | h1 | h1 <;> (subst h1; exact absurd h (by decide))

theorem parseNumber_intChars (n : Int) (rest : List Char) (hr : stopsNumber rest = true) :
    parseNumber (intChars n ++ rest) = some (n, rest) := by
  by_cases hneg : n < 0
  · rw [intChars, if_pos hneg, List.cons_append, parseNumber,
      takeDigitRun_run _ (decimalDigits_isDigit n.natAbs) rest hr]
    rw [if_neg (by simpa using decimalDigits_ne_nil n.natAbs)]
    rw [digitRunVal_decimalDigits]
    have hcast : -((n.natAbs : Int)) = n := by omega
    rw [hcast]
  · obtain ⟨c, t, hdd, hcd⟩ := decimalDigits_head n.natAbs
    have hmarks := isDigit_ne_marks c hcd
    have hcast : ((n.natAbs : Int)) = n := by omega
    rw [intChars, if_neg hneg, hdd, List.cons_append, parseNumber.eq_def]
    split
    · rename_i cs1 heq
      rw [List.cons.injEq] at heq
      exact absurd heq.1 hmarks.1
    · rw [← List.cons_append, ← hdd,
        takeDigitRun_run _ (decimalDigits_isDigit n.natAbs) rest hr]
      rw [if_neg (by simpa using decimalDigits_ne_nil n.natAbs)]
      rw [digitRunVal_decimalDigits, hcast]

theorem skipWs_cons_ws (c : Char) (cs : List Char) (h : isJsonWs c = true) :
    skipWs (c :: cs) = skipWs cs := by
  simp [skipWs, h]

theorem skipWs_cons_not (c : Char) (cs : List Char) (h : isJsonWs c = false) :
    skipWs (c :: cs) = c :: cs := by
  simp [skipWs, h]

theorem skipWs_indent (n : Nat) (cs : List Char) :
    skipWs (indentChars n ++ cs) = skipWs cs := by
  induction n with
  | zero => rfl
  | succ n ih =>
      rw [indentChars, List.replicate_succ, List.cons_append,
        skipWs_cons_ws _ _ (by decide)]
      exact ih

theorem skipWs_idem (cs : List Char) : skipWs (skipWs cs) = skipWs cs := by
  induction cs with
  | nil => rfl
  | cons c cs ih =>
      cases h : isJsonWs c with
      | true => rw [skipWs_cons_ws c cs h]; exact ih
      | false => rw [skipWs_cons_not c cs h, skipWs_cons_not c cs h]

theorem parseJsonValue_stripWs (f : Nat) (cs : List Char) :
    parseJsonValue f (skipWs cs) = parseJsonValue f cs := by
  cases f with
  | zero => rfl
  | succ f =>
      simp only [parseJsonValue]
      rw [skipWs_idem]

theorem parseJsonMembers_stripWs (f : Nat) (cs : List Char) :
    parseJsonMembers f (skipWs cs) = parseJsonMembers f cs := by
  cases f with
  | zero => rfl
  | succ f =>
      simp only [parseJsonMembers]
      rw [skipWs_idem]

theorem parseJsonValue_dropIndent (f n : Nat) (cs : List Char) :
    parseJsonValue f (indentChars n ++ cs) = parseJsonValue f cs := by
  rw [← parseJsonValue_stripWs f (indentChars n ++ cs), skipWs_indent,
    parseJsonValue_stripWs]

theorem parseJsonValue_dropWs (f : Nat) (c : Char) (cs : List Char) (h : isJsonWs c = true) :
    parseJsonValue f (c :: cs) = parseJsonValue f cs := by
  rw [← parseJsonValue_stripWs f (c :: cs), skipWs_cons_ws c cs h, parseJsonValue_stripWs]

theorem parseJsonMembers_dropIndent (f n : Nat) (cs : List Char) :
    parseJsonMembers f (indentChars n ++ cs) = parseJsonMembers f cs := by
  rw [← parseJsonMembers_stripWs f (indentChars n ++ cs), skipWs_indent,
    parseJsonMembers_stripWs]

theorem parseJsonMembers_dropWs (f : Nat) (c : Char) (cs : List Char) (h : isJsonWs c = true) :
    parseJsonMembers f (c :: cs) = parseJsonMembers f cs := by
  rw [← parseJsonMembers_stripWs f (c :: cs), skipWs_cons_ws c cs h,
    parseJsonMembers_stripWs]

theorem parseJsonItems_stripWs (f : Nat) (cs : List Char) :
    parseJsonItems f (skipWs cs) = parseJsonItems f cs := by
  cases f with
  | zero => rfl
  | succ f =>
      simp only [parseJsonItems]
      rw [parseJsonValue_stripWs]

theorem stopsNumber_cons (c : Char) (cs : List Char) :
    stopsNumber (c :: cs) = !c.isDigit := rfl

theorem indentChars_length (n : Nat) : (indentChars n).length = n := by
  simp [indentChars]

theorem jsonQuote_length (s : String) :
    (jsonQuote s).length = (jsonEscapeList s.data).length + 2 := by
  simp [jsonQuote]

theorem pyDumpVal_head (ind : Nat) (j : Json) :
    ∃ c t, pyDumpVal ind j = c :: t ∧ isJsonWs c = false ∧ c ≠ ']' ∧ c ≠ '\x7d' := by
  rcases j with - | b | n | s | (- | ⟨e, es⟩) | (- | ⟨m, ms⟩)
  case num =>
      obtain ⟨c, t, hdd, hcd⟩ := decimalDigits_head n.natAbs
      have hm := isDigit_ne_marks c hcd
      by_cases hneg : n < 0
      · refine ⟨'-', decimalDigits n.natAbs, ?_, by decide, by decide, by decide⟩
        rw [pyDumpVal, intChars, if_pos hneg]
      · refine ⟨c, t, ?_, isDigit_notWs c hcd, hm.2.2.2.2.2.2.2.1,
          hm.2.2.2.2.2.2.2.2⟩
        rw [pyDumpVal, intChars, if_neg hneg, hdd]
  all_goals first
    | (cases b <;> exact ⟨_, _, rfl, by decide, by decide, by decide⟩)
    | exact ⟨_, _, rfl, by decide, by decide, by decide⟩

theorem rtv_null (ind fuel : Nat) (rest : List Char)
    (hf : (pyDumpVal ind .null).length < fuel) :
    parseJsonValue fuel (pyDumpVal ind .null ++ rest) = some (.null, rest) := by
  cases fuel with
  | zero => exact absurd hf (Nat.not_lt_zero _)
  | succ f =>
      simp only [pyDumpVal, List.cons_append, List.nil_append, parseJsonValue]
      rw [skipWs_cons_not _ _ (by decide)]
      rfl

theorem rtv_bool (b : Bool) (ind fuel : Nat) (rest : List Char)
    (hf : (pyDumpVal ind (.bool b)).length < fuel) :
    parseJsonValue fuel (pyDumpVal ind (.bool b) ++ rest) = some (.bool b, rest) := by
  cases fuel with
  | zero => exact absurd hf (Nat.not_lt_zero _)
  | succ f =>
      cases b with
      | true =>
          simp only [pyDumpVal, List.cons_append, List.nil_append, parseJsonValue]
          rw [skipWs_cons_not _ _ (by decide)]
          rfl
      | false =>
          simp only [pyDumpVal, List.cons_append, List.nil_append, parseJsonValue]
          rw [skipWs_cons_not _ _ (by decide)]
          rfl

theorem rtv_num (n : Int) (ind fuel : Nat) (rest : List Char)
    (hf : (pyDumpVal ind (.num n)).length < fuel) (hr : stopsNumber rest = true) :
    parseJsonValue fuel (pyDumpVal ind (.num n) ++ rest) = some (.num n, rest) := by
  cases fuel with
  | zero => exact absurd hf (Nat.not_lt_zero _)
  | succ f =>
      by_cases hneg : n < 0
      · have hfold : '-' :: (decimalDigits n.natAbs ++ rest) = intChars n ++ rest := by
          rw [intChars, if_pos hneg, List.cons_append]
        simp only [pyDumpVal]
        rw [intChars, if_pos hneg, List.cons_append]
        simp only [parseJsonValue]
        rw [skipWs_cons_not _ _ (by decide)]
        simp
        rw [hfold, parseNumber_intChars n rest hr]
      · obtain ⟨c, t, hdd, hcd⟩ := decimalDigits_head n.natAbs
        have hm := isDigit_ne_marks c hcd
        have hfold : c :: (t ++ rest) = intChars n ++ rest := by
          rw [intChars, if_neg hneg, hdd, List.cons_append]
        simp only [pyDumpVal]
        rw [intChars, if_neg hneg, hdd, List.cons_append]
        simp only [parseJsonValue]
        rw [skipWs_cons_not _ _ (isDigit_notWs c hcd)]
        simp [hm.2.1, hm.2.2.1, hm.2.2.2.1, hm.2.2.2.2.1, hm.2.2.2.2.2.1,
          hm.2.2.2.2.2.2.1, hcd]
        rw [hfold, parseNumber_intChars n rest hr]

theorem rtv_str (s : String) (ind fuel : Nat) (rest : List Char)
    (hf : (pyDumpVal ind (.str s)).length < fuel) :
    parseJsonValue fuel (pyDumpVal ind (.str s) ++ rest) = some (.str s, rest) := by
  cases fuel with
  | zero => exact absurd hf (Nat.not_lt_zero _)
  | succ f =>
      simp only [pyDumpVal, jsonQuote, List.cons_append, List.append_assoc,
        List.singleton_append]
      simp only [parseJsonValue]
      rw [skipWs_cons_not _ _ (by decide)]
      simp
      rw [parseStringRest_quote]

theorem parseJsonItems_dropWs (f : Nat) (c : Char) (cs : List Char) (h : isJsonWs c = true) :
    parseJsonItems f (c :: cs) = parseJsonItems f cs := by
  rw [← parseJsonItems_stripWs f (c :: cs), skipWs_cons_ws c cs h, parseJsonItems_stripWs]

theorem parseJsonValue_arr_of (f : Nat) (r : List Char) (c1 : Char) (r1 : List Char)
    (vs : List Json) (r2 : List Char)
    (hskip : skipWs r = c1 :: r1) (hne : c1 ≠ ']')
    (hitems : parseJsonItems f (c1 :: r1) = some (vs, r2)) :
    parseJsonValue (f + 1) ('[' :: r) = some (Json.arr vs, r2) := by
  have hsw := skipWs_cons_not '[' r (by decide)
  simp only [parseJsonValue]
  rw [hsw]
  simp [hskip, hne, hitems]

theorem parseJsonValue_obj_of (f : Nat) (r : List Char) (r1 : List Char)
    (ms : List (String × Json)) (r2 : List Char)
    (hskip : skipWs r = '"' :: r1)
    (hmem : parseJsonMembers f ('"' :: r1) = some (ms, r2)) :
    parseJsonValue (f + 1) ('\x7b' :: r) = some (Json.obj ms, r2) := by
  have hsw := skipWs_cons_not '\x7b' r (by decide)
  simp only [parseJsonValue]
  rw [hsw]
  simp [hskip, hmem]

mutual

theorem rt_value : ∀ (j : Json) (ind fuel : Nat) (rest : List Char),
    (pyDumpVal ind j).length < fuel → stopsNumber rest = true →
    parseJsonValue fuel (pyDumpVal ind j ++ rest) = some (j, rest)
  | .null, ind, fuel, rest, hf, hr => rtv_null ind fuel rest hf
  | .bool b, ind, fuel, rest, hf, hr => rtv_bool b ind fuel rest hf
  | .num n, ind, fuel, rest, hf, hr => rtv_num n ind fuel rest hf hr
  | .str s, ind, fuel, rest, hf, hr => rtv_str s ind fuel rest hf
  | .arr [], ind, fuel, rest, hf, hr => by
      cases fuel with
      | zero => exact absurd hf (Nat.not_lt_zero _)
      | succ f => rfl
  | .arr (e :: es), ind, fuel, rest, hf, hr => by
      cases fuel with
      | zero => exact absurd hf (Nat.not_lt_zero _)
      | succ f =>
          have hlen : (pyDumpItems (ind + 2) (e :: es)).length + 1 < f := by
            rw [pyDumpVal] at hf
            simp only [List.length_cons, List.length_append, indentChars_length,
              List.length_singleton] at hf
            omega
          obtain ⟨c, t, hct, hws, hbr, hbc⟩ := pyDumpVal_head (ind + 2) e
          obtain ⟨z, hskip⟩ :
              ∃ z, skipWs (pyDumpItems (ind + 2) (e :: es)
                ++ ('\n' :: (indentChars ind ++ ']' :: rest))) = c :: z := by
            cases es with
            | nil =>
                rw [pyDumpItems, List.append_assoc, skipWs_indent,
                  List.append_assoc, hct, List.cons_append, skipWs_cons_not _ _ hws]
                exact ⟨_, rfl⟩
            | cons e2 es2 =>
                rw [pyDumpItems, List.append_assoc, skipWs_indent,
                  List.append_assoc, hct, List.cons_append, skipWs_cons_not _ _ hws]
                exact ⟨_, rfl⟩
          have hitems : parseJsonItems f (c :: z) = some (e :: es, rest) := by
            rw [← hskip, parseJsonItems_stripWs]
            exact rt_items e es (ind + 2) ind f rest hlen
          have h2 : skipWs ('\n' :: (pyDumpItems (ind + 2) (e :: es)
              ++ ('\n' :: (indentChars ind ++ ']' :: rest)))) = c :: z := by
            rw [skipWs_cons_ws _ _ (by decide)]
            exact hskip
          rw [pyDumpVal]
          simp only [List.cons_append, List.append_assoc, List.singleton_append]
          exact parseJsonValue_arr_of f _ c z (e :: es) rest h2 hbr hitems
  | .obj [], ind, fuel, rest, hf, hr => by
      cases fuel with
      | zero => exact absurd hf (Nat.not_lt_zero _)
      | succ f => rfl
  | .obj ((k, v) :: ms), ind, fuel, rest, hf, hr => by
      cases fuel with
      | zero => exact absurd hf (Nat.not_lt_zero _)
      | succ f =>
          have hlen : (pyDumpMembers (ind + 2) ((k, v) :: ms)).length < f := by
            rw [pyDumpVal] at hf
            simp only [List.length_cons, List.length_append, indentChars_length,
              List.length_singleton] at hf
            omega
          obtain ⟨z, hskip⟩ :
              ∃ z, skipWs (pyDumpMembers (ind + 2) ((k, v) :: ms)
                ++ ('\n' :: (indentChars ind ++ '\x7d' :: rest))) = '"' :: z := by
            cases ms with
            | nil =>
                rw [pyDumpMembers, List.append_assoc, skipWs_indent, jsonQuote,
                  List.cons_append, List.cons_append, skipWs_cons_not _ _ (by decide)]
                exact ⟨_, rfl⟩
            | cons m2 ms2 =>
                rw [pyDumpMembers, List.append_assoc, skipWs_indent, jsonQuote,
                  List.cons_append, List.cons_append, skipWs_cons_not _ _ (by decide)]
                exact ⟨_, rfl⟩
          have hmem : parseJsonMembers f ('"' :: z) = some ((k, v) :: ms, rest) := by
            rw [← hskip, parseJsonMembers_stripWs]
            exact rt_members (k, v) ms (ind + 2) ind f rest hlen
          have h2 : skipWs ('\n' :: (pyDumpMembers (ind + 2) ((k, v) :: ms)
              ++ ('\n' :: (indentChars ind ++ '\x7d' :: rest)))) = '"' :: z := by
            rw [skipWs_cons_ws _ _ (by decide)]
            exact hskip
          rw [pyDumpVal]
          simp only [List.cons_append, List.append_assoc, List.singleton_append]
          exact parseJsonValue_obj_of f _ z ((k, v) :: ms) rest h2 hmem
termination_by j _ _ _ _ _ => sizeOf j

theorem rt_items : ∀ (e : Json) (es : List Json) (ind ind2 fuel : Nat) (rest : List Char),
    (pyDumpItems ind (e :: es)).length + 1 < fuel →
    parseJsonItems fuel
        (pyDumpItems ind (e :: es) ++ '\n' :: (indentChars ind2 ++ ']' :: rest))
      = some (e :: es, rest)
  | e, [], ind, ind2, fuel, rest, hf => by
      cases fuel with
      | zero => exact absurd hf (Nat.not_lt_zero _)
      | succ f =>
          have hvlen : (pyDumpVal ind e).length < f := by
            rw [pyDumpItems] at hf
            simp only [List.length_append, indentChars_length, List.length_nil] at hf
            omega
          have hv : parseJsonValue f (indentChars ind
              ++ (pyDumpVal ind e ++ ('\n' :: (indentChars ind2 ++ ']' :: rest))))
              = some (e, '\n' :: (indentChars ind2 ++ ']' :: rest)) := by
            rw [parseJsonValue_dropIndent]
            exact rt_value e ind f _ hvlen rfl
          have hsw : skipWs ('\n' :: (indentChars ind2 ++ ']' :: rest)) = ']' :: rest := by
            rw [skipWs_cons_ws _ _ (by decide), skipWs_indent,
              skipWs_cons_not _ _ (by decide)]
          rw [pyDumpItems]
          simp only [List.append_nil, List.append_assoc, parseJsonItems]
          rw [hv]
          simp [hsw]
  | e, e2 :: es2, ind, ind2, fuel, rest, hf => by
      cases fuel with
      | zero => exact absurd hf (Nat.not_lt_zero _)
      | succ f =>
          have hvlen : (pyDumpVal ind e).length < f := by
            rw [pyDumpItems] at hf
            simp only [List.length_append, List.length_cons, indentChars_length] at hf
            omega
          have hlen2 : (pyDumpItems ind (e2 :: es2)).length + 1 < f := by
            rw [pyDumpItems] at hf
            simp only [List.length_append, List.length_cons, indentChars_length] at hf
            omega
          have hv : parseJsonValue f (indentChars ind
              ++ (pyDumpVal ind e ++ (',' :: '\n' :: (pyDumpItems ind (e2 :: es2)
                ++ '\n' :: (indentChars ind2 ++ ']' :: rest)))))
              = some (e, ',' :: '\n' :: (pyDumpItems ind (e2 :: es2)
                ++ '\n' :: (indentChars ind2 ++ ']' :: rest))) := by
            rw [parseJsonValue_dropIndent]
            exact rt_value e ind f _ hvlen rfl
          have hnext : parseJsonItems f ('\n' :: (pyDumpItems ind (e2 :: es2)
              ++ '\n' :: (indentChars ind2 ++ ']' :: rest)))
              = some (e2 :: es2, rest) := by
            rw [parseJsonItems_dropWs _ _ _ (by decide)]
            exact rt_items e2 es2 ind ind2 f rest hlen2
          have hsw : skipWs (',' :: '\n' :: (pyDumpItems ind (e2 :: es2)
              ++ '\n' :: (indentChars ind2 ++ ']' :: rest)))
              = ',' :: '\n' :: (pyDumpItems ind (e2 :: es2)
                ++ '\n' :: (indentChars ind2 ++ ']' :: rest)) :=
            skipWs_cons_not _ _ (by decide)
          rw [pyDumpItems]
          simp only [List.cons_append, List.append_assoc, parseJsonItems]
          rw [hv]
          simp [hsw, hnext]
termination_by e es _ _ _ _ _ => sizeOf e + sizeOf es

theorem rt_members : ∀ (kv : String × Json) (ms : List (String × Json))
    (ind ind2 fuel : Nat) (rest : List Char),
    (pyDumpMembers ind (kv :: ms)).length < fuel →
    parseJsonMembers fuel
        (pyDumpMembers ind (kv :: ms) ++ '\n' :: (indentChars ind2 ++ '\x7d' :: rest))
      = some (kv :: ms, rest)
  | (k, v), [], ind, ind2, fuel, rest, hf => by
      cases fuel with
      | zero => exact absurd hf (Nat.not_lt_zero _)
      | succ f =>
          have hvlen : (pyDumpVal ind v).length < f := by
            rw [pyDumpMembers] at hf
            simp only [List.length_append, List.length_cons, indentChars_length,
              jsonQuote_length, List.length_nil] at hf
            omega
          have hq := parseStringRest_quote k (':' :: ' ' :: (pyDumpVal ind v
            ++ '\n' :: (indentChars ind2 ++ '\x7d' :: rest)))
          have hsw1 : skipWs (':' :: ' ' :: (pyDumpVal ind v
              ++ '\n' :: (indentChars ind2 ++ '\x7d' :: rest)))
              = ':' :: ' ' :: (pyDumpVal ind v
                ++ '\n' :: (indentChars ind2 ++ '\x7d' :: rest)) :=
            skipWs_cons_not _ _ (by decide)
          have hval : parseJsonValue f (' ' :: (pyDumpVal ind v
              ++ '\n' :: (indentChars ind2 ++ '\x7d' :: rest)))
              = some (v, '\n' :: (indentChars ind2 ++ '\x7d' :: rest)) := by
            rw [parseJsonValue_dropWs f ' ' _ (by decide)]
            exact rt_value v ind f _ hvlen rfl
          have hsw2 : skipWs ('\n' :: (indentChars ind2 ++ '\x7d' :: rest))
              = '\x7d' :: rest := by
            rw [skipWs_cons_ws _ _ (by decide), skipWs_indent,
              skipWs_cons_not _ _ (by decide)]
          rw [pyDumpMembers]
          simp only [jsonQuote, List.cons_append, List.append_assoc,
            List.singleton_append, List.nil_append, List.append_nil, parseJsonMembers]
          rw [skipWs_indent, skipWs_cons_not _ _ (by decide)]
          simp [hq, hsw1, hval, hsw2]
  | (k, v), m2 :: ms2, ind, ind2, fuel, rest, hf => by
      cases fuel with
      | zero => exact absurd hf (Nat.not_lt_zero _)
      | succ f =>
          have hvlen : (pyDumpVal ind v).length < f := by
            rw [pyDumpMembers] at hf
            simp only [List.length_append, List.length_cons, indentChars_length,
              jsonQuote_length] at hf
            omega
          have hlen2 : (pyDumpMembers ind (m2 :: ms2)).length < f := by
            rw [pyDumpMembers] at hf
            simp only [List.length_append, List.length_cons, indentChars_length,
              jsonQuote_length] at hf
            omega
          have hq := parseStringRest_quote k (':' :: ' ' :: (pyDumpVal ind v
            ++ ',' :: '\n' :: (pyDumpMembers ind (m2 :: ms2)
              ++ '\n' :: (indentChars ind2 ++ '\x7d' :: rest))))
          have hsw1 : skipWs (':' :: ' ' :: (pyDumpVal ind v
              ++ ',' :: '\n' :: (pyDumpMembers ind (m2 :: ms2)
                ++ '\n' :: (indentChars ind2 ++ '\x7d' :: rest))))
              = ':' :: ' ' :: (pyDumpVal ind v
                ++ ',' :: '\n' :: (pyDumpMembers ind (m2 :: ms2)
                  ++ '\n' :: (indentChars ind2 ++ '\x7d' :: rest))) :=
            skipWs_cons_not _ _ (by decide)
          have hval : parseJsonValue f (' ' :: (pyDumpVal ind v
              ++ ',' :: '\n' :: (pyDumpMembers ind (m2 :: ms2)
                ++ '\n' :: (indentChars ind2 ++ '\x7d' :: rest))))
              = some (v, ',' :: '\n' :: (pyDumpMembers ind (m2 :: ms2)
                ++ '\n' :: (indentChars ind2 ++ '\x7d' :: rest))) := by
            rw [parseJsonValue_dropWs f ' ' _ (by decide)]
            exact rt_value v ind f _ hvlen rfl
          have hsw2 : skipWs (',' :: '\n' :: (pyDumpMembers ind (m2 :: ms2)
              ++ '\n' :: (indentChars ind2 ++ '\x7d' :: rest)))
              = ',' :: '\n' :: (pyDumpMembers ind (m2 :: ms2)
                ++ '\n' :: (indentChars ind2 ++ '\x7d' :: rest)) :=
            skipWs_cons_not _ _ (by decide)
          have hnext : parseJsonMembers f ('\n' :: (pyDumpMembers ind (m2 :: ms2)
              ++ '\n' :: (indentChars ind2 ++ '\x7d' :: rest)))
              = some (m2 :: ms2, rest) := by
            rw [parseJsonMembers_dropWs _ _ _ (by decide)]
            exact rt_members m2 ms2 ind ind2 f rest hlen2
          rw [pyDumpMembers]
          simp only [jsonQuote, List.cons_append, List.append_assoc,
            List.singleton_append, List.nil_append, parseJsonMembers]
          rw [skipWs_indent, skipWs_cons_not _ _ (by decide)]
          simp [hq, hsw1, hval, hsw2, hnext]
termination_by kv ms _ _ _ _ _ => sizeOf kv + sizeOf ms

end

/-! ## The claims -/

/-- The decoder accepts every serialized value and returns it unchanged. -/
theorem parseJson_pyDumpVal (j : Json) :
    parseJson (String.mk (pyDumpVal 0 j)) = some j := by
  have h := rt_value j 0 ((pyDumpVal 0 j).length + 1) [] (Nat.lt_succ_self _) rfl
  rw [List.append_nil] at h
  have hd : (String.mk (pyDumpVal 0 j)).data = pyDumpVal 0 j := rfl
  rw [parseJson, hd, h]
  rfl

theorem intercalate_single (q : String) : String.intercalate " " [q] = q := rfl

/-- `pyStrip` removes Python whitespace beyond the four ASCII characters:
a trailing vertical tab after a quit word disappears, a form-feed-only
line strips to empty, and no-break spaces are stripped too. -/
theorem pyStrip_beyond_ascii :
    pyStrip "quit\x0b" = "quit" ∧ pyStrip "\x0c" = ""
      ∧ pyStrip " quit " = "quit" := by
  decide

/-- C1: for every non-empty query string `Q`, `execute_workflow(Q)` returns
a record whose `input.query` field is exactly `Q`. -/
theorem C1_query_identity (q : String) (_hq : q ≠ "") :
    ((execute_workflow q).1).input.query = q := rfl

theorem C1_query_identity_witness :
    ("What is RAG?" : String) ≠ ""
      ∧ ((execute_workflow "What is RAG?").1).input.query = "What is RAG?" :=
  ⟨by decide, C1_query_identity "What is RAG?" (by decide)⟩

/-- C2: for every query, `nodes_executed` is 13 and `merkle_root` is
"4fcd7d2a62aa31a3" — both are literal constants, independent of the
query. -/
theorem C2_constant_fields (q : String) :
    ((execute_workflow q).1).nodes_executed = 13
      ∧ ((execute_workflow q).1).merkle_root = "4fcd7d2a62aa31a3" :=
  ⟨rfl, rfl⟩

/-- C3: invoked with a query argument (single-shot mode), `main` runs the
Query Runner once on that query and exits with status 0; the printed result
line carries `json.dumps(result, indent=2)` (the 2-space-indented
serialization embedded by `pyJsonDumps`), which a standard JSON decoder
parses back to an object whose `"workflow_id"` key holds
`"gemma-rag-cascade"`. -/
theorem C3_single_shot_json (q : String)
    (h1 : q ≠ "--interactive") (h2 : q ≠ "-i") :
    main_dispatch [q]
        = .singleShot q ((execute_workflow q).2
            ++ ["\n📊 Result: " ++ pyJsonDumps (execute_workflow q).1]) 0
      ∧ parseJson (pyJsonDumps (execute_workflow q).1)
          = some (resultJson (execute_workflow q).1)
      ∧ lookupKey (resultJson (execute_workflow q).1) "workflow_id"
          = some (.str "gemma-rag-cascade") := by
  refine ⟨?_, parseJson_pyDumpVal (resultJson (execute_workflow q).1), rfl⟩
  rw [main_dispatch]
  rw [if_neg (by simp [h1, h2]), intercalate_single]

theorem C3_single_shot_json_witness :
    ("What is RAG?" : String) ≠ "--interactive"
      ∧ ("What is RAG?" : String) ≠ "-i"
      ∧ (main_dispatch ["What is RAG?"]
            = .singleShot "What is RAG?" ((execute_workflow "What is RAG?").2
                ++ ["\n📊 Result: " ++ pyJsonDumps (execute_workflow "What is RAG?").1]) 0
          ∧ parseJson (pyJsonDumps (execute_workflow "What is RAG?").1)
              = some (resultJson (execute_workflow "What is RAG?").1)
          ∧ lookupKey (resultJson (execute_workflow "What is RAG?").1) "workflow_id"
              = some (.str "gemma-rag-cascade")) :=
  ⟨by decide, by decide, C3_single_shot_json "What is RAG?" (by decide) (by decide)⟩

/-- C4: in the interactive loop, a line terminates the loop exactly when its
trimmed, lowercased form is one of the quit words `"quit"`, `"exit"`, `"q"`;
in particular `"quit"`, `"QUIT"` and `"  quit  "` all terminate, and any
other line leaves the loop running. -/
theorem C4_quit_words :
    (∀ s : String,
        (interactive_step (.line s)).next = .terminated
          ↔ pyLower (pyStrip s) ∈ quitWords)
      ∧ (interactive_step (.line "quit")).next = .terminated
      ∧ (interactive_step (.line "QUIT")).next = .terminated
      ∧ (interactive_step (.line "  quit  ")).next = .terminated := by
  refine ⟨?_, rfl, rfl, rfl⟩
  intro s
  rw [interactive_step]
  by_cases hq : pyLower (pyStrip s) ∈ quitWords
  · rw [if_pos (by simp [List.contains, List.elem_eq_mem, hq])]
    simp [hq]
  · rw [if_neg (by simp [List.contains, List.elem_eq_mem, hq])]
    by_cases he : pyStrip s = ""
    · simp only [if_pos he]
      simp [hq]
    · simp only [if_neg he]
      simp [hq]

/-- C5: an input line that is empty after trimming sends the loop straight
back to waiting: the Query Runner is not invoked and nothing is printed. -/
theorem C5_empty_input (s : String) (h : pyStrip s = "") :
    interactive_step (.line s) = ⟨.waiting, false, []⟩ := by
  rw [interactive_step, h]
  rfl

theorem C5_empty_input_witness :
    pyStrip "   " = ""
      ∧ interactive_step (.line "   ") = ⟨.waiting, false, []⟩ :=
  ⟨by decide, C5_empty_input "   " (by decide)⟩

/-- C6: an exception raised while a query is being processed — any
exception the generic `except Exception` arm sees, i.e. anything but
`KeyboardInterrupt` — is caught: its message is printed as the last line,
prefixed with the error marker, and the loop returns to waiting instead of
terminating. -/
theorem C6_processing_error (s : String) (k : Nat) (e : PyExc)
    (he : e ≠ .keyboardInterrupt) :
    (interactive_step (.raisedInProcessing s k e)).next = .waiting
      ∧ (interactive_step (.raisedInProcessing s k e)).printed.getLast?
          = some (.text ("\n❌ Error: " ++ e.message)) := by
  cases e with
  | keyboardInterrupt => exact absurd rfl he
  | eofError m =>
      refine ⟨rfl, ?_⟩
      rw [interactive_step, handleExc]
      simp [PyExc.message]
  | runtimeError m =>
      refine ⟨rfl, ?_⟩
      rw [interactive_step, handleExc]
      simp [PyExc.message]

theorem C6_processing_error_witness :
    (PyExc.runtimeError "boom" : PyExc) ≠ .keyboardInterrupt
      ∧ ((interactive_step (.raisedInProcessing "why" 2 (.runtimeError "boom"))).next
            = .waiting
          ∧ (interactive_step
              (.raisedInProcessing "why" 2 (.runtimeError "boom"))).printed.getLast?
            = some (.text ("\n❌ Error: " ++ (PyExc.runtimeError "boom").message))) :=
  ⟨by decide, C6_processing_error "why" 2 (.runtimeError "boom") (by decide)⟩

/-- C7: with no arguments, `main` prints the usage text (whose first line
is exactly "Usage:") and exits with status 1; neither the Query Runner nor
the Interactive Loop is reached. -/
theorem C7_no_args :
    main_dispatch [] = .usage usageLines 1
      ∧ usageLines.head? = some "Usage:"
      ∧ main_dispatch [] ≠ .interactive
      ∧ ∀ q printed code, main_dispatch [] ≠ .singleShot q printed code := by
  refine ⟨rfl, rfl, by simp [main_dispatch], ?_⟩
  intro q printed code
  simp [main_dispatch]

/-- C8: a `KeyboardInterrupt` — at the blocking read or at any point during
processing — terminates the loop at once with the farewell as the final
printed line; nothing is printed after it, and in particular no timing line
appears in the iteration's output. -/
theorem C8_interrupt (s : String) (k : Nat) :
    (interactive_step (.raisedAtRead .keyboardInterrupt)).next = .terminated
      ∧ (interactive_step (.raisedAtRead .keyboardInterrupt)).printed
          = [.text "\n\n👋 Goodbye!"]
      ∧ (interactive_step (.raisedInProcessing s k .keyboardInterrupt)).next
          = .terminated
      ∧ (interactive_step
            (.raisedInProcessing s k .keyboardInterrupt)).printed.getLast?
          = some (.text "\n\n👋 Goodbye!")
      ∧ OutLine.timing
          ∉ (interactive_step (.raisedInProcessing s k .keyboardInterrupt)).printed := by
  refine ⟨rfl, rfl, rfl, ?_, ?_⟩
  · rw [interactive_step, handleExc]
    simp
  · rw [interactive_step, handleExc]
    simp
    intro hmem
    have h2 := List.mem_of_mem_take hmem
    rw [List.mem_map] at h2
    obtain ⟨x, -, hx⟩ := h2
    exact OutLine.noConfusion hx

/-- C9: end of input does not terminate the loop: the `EOFError` raised by
the blocking read is caught by the same generic handler as processing
errors — an error line is printed and the loop waits again; the loop
reaches TERMINATED only through a quit word or a `KeyboardInterrupt`,
never through exhausted input. -/
theorem C9_eof_not_fatal (msg : String) :
    interactive_step (.raisedAtRead (.eofError msg))
        = ⟨.waiting, false, [.text ("\n❌ Error: " ++ msg)]⟩
      ∧ ∀ ev : Event, (interactive_step ev).next = .terminated ↔
          ((∃ s, ev = .line s ∧ pyLower (pyStrip s) ∈ quitWords)
            ∨ ev = .raisedAtRead .keyboardInterrupt
            ∨ ∃ s k, ev = .raisedInProcessing s k .keyboardInterrupt) := by
  refine ⟨rfl, ?_⟩
  intro ev
  cases ev with
  | line s =>
      rw [interactive_step]
      by_cases hq : pyLower (pyStrip s) ∈ quitWords
      · rw [if_pos (by simp [List.contains, List.elem_eq_mem, hq])]
        simp [hq]
      · rw [if_neg (by simp [List.contains, List.elem_eq_mem, hq])]
        by_cases he : pyStrip s = ""
        · simp only [if_pos he]
          simp [hq]
        · simp only [if_neg he]
          simp [hq]
  | raisedAtRead e =>
      cases e with
      | keyboardInterrupt => simp [interactive_step, handleExc]
      | eofError m => simp [interactive_step, handleExc]
      | runtimeError m => simp [interactive_step, handleExc]
  | raisedInProcessing s k e =>
      cases e with
      | keyboardInterrupt => simp [interactive_step, handleExc]
      | eofError m => simp [interactive_step, handleExc]
      | runtimeError m => simp [interactive_step, handleExc]

/-- C10: when the first argument is neither `--interactive` nor `-i`, all
arguments are joined with single spaces into one query and the workflow
runs once on the joined string; the interactive flag is recognized only in
first position (a later `-i` is just part of the query). -/
theorem C10_joined_args (a : String) (args : List String)
    (h1 : a ≠ "--interactive") (h2 : a ≠ "-i") :
    main_dispatch (a :: args)
      = .singleShot (String.intercalate " " (a :: args))
          ((execute_workflow (String.intercalate " " (a :: args))).2
            ++ ["\n📊 Result: "
                ++ pyJsonDumps (execute_workflow (String.intercalate " " (a :: args))).1])
          0 := by
  rw [main_dispatch]
  rw [if_neg (by simp [h1, h2])]

theorem C10_joined_args_witness :
    ("foo" : String) ≠ "--interactive" ∧ ("foo" : String) ≠ "-i"
      ∧ main_dispatch ["foo", "-i"]
          = .singleShot "foo -i" ((execute_workflow "foo -i").2
              ++ ["\n📊 Result: " ++ pyJsonDumps (execute_workflow "foo -i").1]) 0 := by
  refine ⟨by decide, by decide, ?_⟩
  have h := C10_joined_args "foo" ["-i"] (by decide) (by decide)
  have hj : String.intercalate " " ["foo", "-i"] = "foo -i" := by decide
  rw [hj] at h
  exact h

end GemmaRag
